import Mathlib

/-!
Verification development for the `pythonillustrator` repository (`app.py`).

The definitions below are shallow embeddings of the program's data model and
operations: Python lists become Lean `List`s, float coordinates become real
numbers (exact arithmetic), Python dictionaries keyed by canvas item ids
become association lists, and `copy.deepcopy` becomes the value snapshot that
is automatic in a pure language.  Each definition is translated directly from
the corresponding function in `app.py`; theorems about them settle the frozen
claims.
-/

namespace Illustrator

/-- Global constant `MAX_HISTORY = 30` from `app.py`. -/
def MAX_HISTORY : Nat := 30

/-- `EditorHistory` from `app.py`: a list of snapshot entries plus a current
index.  The entry type is abstract (`app.py` stores deep-copied
`(shapes, layers, description)` triples).  `current_index` is a Python `int`
that starts at `-1`, hence `Int`. -/
structure EditorHistory (α : Type) where
  states : List α
  current_index : Int
deriving Repr

/-- `EditorHistory.__init__`: empty state list, `current_index = -1`. -/
def EditorHistory.empty (α : Type) : EditorHistory α :=
  { states := [], current_index := -1 }

/-- `EditorHistory.push_state` from `app.py`: truncate redo branch, evict the
oldest entry at capacity (decrementing `current_index`), append the new
snapshot entry, and point `current_index` at the new last index. -/
def push_state (h : EditorHistory α) (s : α) : EditorHistory α :=
  let h1 := if h.current_index < (h.states.length : Int) - 1 then
      { h with states := h.states.take (h.current_index + 1).toNat }
    else h
  let h2 := if MAX_HISTORY ≤ h1.states.length then
      { states := h1.states.drop 1, current_index := h1.current_index - 1 }
    else h1
  { states := h2.states ++ [s], current_index := (h2.states.length : Int) }

/-- `EditorHistory.can_undo`. -/
def can_undo (h : EditorHistory α) : Bool := 0 < h.current_index

/-- `EditorHistory.can_redo`. -/
def can_redo (h : EditorHistory α) : Bool := h.current_index < (h.states.length : Int) - 1

/-- `EditorHistory.undo`: returns the updated history together with the entry
returned by the Python method (`None` becomes `none`). -/
def undo (h : EditorHistory α) : EditorHistory α × Option α :=
  if can_undo h then
    let h1 : EditorHistory α := { h with current_index := h.current_index - 1 }
    (h1, h1.states.get? h1.current_index.toNat)
  else (h, none)

/-- `EditorHistory.redo`. -/
def redo (h : EditorHistory α) : EditorHistory α × Option α :=
  if can_redo h then
    let h1 : EditorHistory α := { h with current_index := h.current_index + 1 }
    (h1, h1.states.get? h1.current_index.toNat)
  else (h, none)

/-- `EditorHistory.go_to`: jump to a valid index, refuse out-of-range. -/
def go_to (h : EditorHistory α) (idx : Int) : EditorHistory α × Option α :=
  if 0 ≤ idx ∧ idx < (h.states.length : Int) then
    ({ h with current_index := idx }, h.states.get? idx.toNat)
  else (h, none)

/-- `SimpleImageEditor.normalize_rect` from `app.py`. -/
def normalize_rect (c : ℝ × ℝ × ℝ × ℝ) : ℝ × ℝ × ℝ × ℝ :=
  (min c.1 c.2.2.1, min c.2.1 c.2.2.2, max c.1 c.2.2.1, max c.2.1 c.2.2.2)

/-- Any entry returned by `go_to` is one of the stored states. -/
theorem go_to_mem {α : Type} (h : EditorHistory α) (idx : Int) (x : α)
    (hx : (go_to h idx).2 = some x) : x ∈ h.states := by
  unfold go_to at hx
  split at hx
  · exact List.get?_mem hx
  · simp at hx

/-- Any entry returned by `undo` is one of the stored states. -/
theorem undo_mem {α : Type} (h : EditorHistory α) (x : α)
    (hx : (undo h).2 = some x) : x ∈ h.states := by
  unfold undo at hx
  split at hx
  · exact List.get?_mem hx
  · simp at hx

/-- Any entry returned by `redo` is one of the stored states. -/
theorem redo_mem {α : Type} (h : EditorHistory α) (x : α)
    (hx : (redo h).2 = some x) : x ∈ h.states := by
  unfold redo at hx
  split at hx
  · exact List.get?_mem hx
  · simp at hx

/-- Unfolding lemma for `push_state` on an explicit structure literal. -/
theorem push_state_apply (l : List α) (ci : Int) (s : α) :
    push_state ⟨l, ci⟩ s =
      ⟨(if MAX_HISTORY ≤ (if ci < (l.length : Int) - 1 then l.take (ci+1).toNat else l).length
          then (if ci < (l.length : Int) - 1 then l.take (ci+1).toNat else l).drop 1
          else (if ci < (l.length : Int) - 1 then l.take (ci+1).toNat else l)) ++ [s],
        ((if MAX_HISTORY ≤ (if ci < (l.length : Int) - 1 then l.take (ci+1).toNat else l).length
          then (if ci < (l.length : Int) - 1 then l.take (ci+1).toNat else l).drop 1
          else (if ci < (l.length : Int) - 1 then l.take (ci+1).toNat else l)).length : Int)⟩ := by
  simp only [push_state]
  split <;> split <;> rfl

/-- Unfolding lemma for `undo` on an explicit structure literal. -/
theorem undo_apply (l : List α) (ci : Int) :
    undo ⟨l, ci⟩ = if 0 < ci then ((⟨l, ci - 1⟩ : EditorHistory α), l.get? (ci - 1).toNat)
      else (⟨l, ci⟩, none) := by
  by_cases h : 0 < ci
  · simp [undo, can_undo, h]
  · simp [undo, can_undo, h]

/-- Claim C10: `normalize_rect` returns componentwise mins and maxes, and is
idempotent. -/
theorem normalize_rect_min_max_idempotent :
    (∀ x1 y1 x2 y2 : ℝ,
      normalize_rect (x1, y1, x2, y2) = (min x1 x2, min y1 y2, max x1 x2, max y1 y2))
    ∧ ∀ c : ℝ × ℝ × ℝ × ℝ, normalize_rect (normalize_rect c) = normalize_rect c := by
  constructor
  · intro x1 y1 x2 y2; rfl
  · rintro ⟨x1, y1, x2, y2⟩
    simp only [normalize_rect]
    rw [min_eq_left min_le_max, min_eq_left min_le_max,
        max_eq_right min_le_max, max_eq_right min_le_max]

/-- Claim C1: if `push_state` is called when `current_index` is not the last
index, every entry after `current_index` is discarded before the new entry is
appended; concretely, for states `[S0,S1,S2]` with `current_index = 2`, two
`undo` calls followed by `push_state S3` leave the states equal to `[S0,S3]`,
and `S1`, `S2` are unreachable by `undo`/`redo`/`go_to`. -/
theorem push_state_branch_truncation (α : Type) :
    (∀ (h : EditorHistory α) (s : α),
      0 ≤ h.current_index →
      h.current_index < (h.states.length : Int) - 1 →
      h.states.length ≤ MAX_HISTORY →
      (push_state h s).states = h.states.take (h.current_index + 1).toNat ++ [s]
        ∧ (push_state h s).current_index = h.current_index + 1)
    ∧ ∀ S0 S1 S2 S3 : α,
      (undo (push_state (push_state (push_state (EditorHistory.empty α) S0) S1) S2)).2
          = some S1
      ∧ (undo (undo (push_state (push_state (push_state
            (EditorHistory.empty α) S0) S1) S2)).1).2 = some S0
      ∧ (push_state (undo (undo (push_state (push_state (push_state
            (EditorHistory.empty α) S0) S1) S2)).1).1 S3).states = [S0, S3]
      ∧ (push_state (undo (undo (push_state (push_state (push_state
            (EditorHistory.empty α) S0) S1) S2)).1).1 S3).current_index = 1
      ∧ (∀ (idx : Int) (x : α),
          (go_to (push_state (undo (undo (push_state (push_state (push_state
            (EditorHistory.empty α) S0) S1) S2)).1).1 S3) idx).2 = some x →
          x = S0 ∨ x = S3)
      ∧ (∀ x : α,
          (undo (push_state (undo (undo (push_state (push_state (push_state
            (EditorHistory.empty α) S0) S1) S2)).1).1 S3)).2 = some x →
          x = S0 ∨ x = S3)
      ∧ (∀ x : α,
          (redo (push_state (undo (undo (push_state (push_state (push_state
            (EditorHistory.empty α) S0) S1) S2)).1).1 S3)).2 = some x →
          x = S0 ∨ x = S3) := by
  constructor
  · intro h s h0 h1 h2
    obtain ⟨l, ci⟩ := h
    simp only at h0 h1 h2 ⊢
    have htrunc : (l.take (ci + 1).toNat).length = (ci + 1).toNat := by
      rw [List.length_take]
      omega
    have hlt : ¬ MAX_HISTORY ≤ (l.take (ci + 1).toNat).length := by
      rw [htrunc]
      simp only [MAX_HISTORY] at h2 ⊢
      omega
    rw [push_state_apply, if_pos h1, if_neg hlt]
    refine ⟨rfl, ?_⟩
    simp only [EditorHistory.current_index, htrunc]
    omega
  · intro S0 S1 S2 S3
    have e1 : push_state (EditorHistory.empty α) S0 = ⟨[S0], 0⟩ := by
      rw [show EditorHistory.empty α = ⟨[], -1⟩ from rfl, push_state_apply]; norm_num
    have e2 : push_state (⟨[S0], 0⟩ : EditorHistory α) S1 = ⟨[S0, S1], 1⟩ := by
      rw [push_state_apply]; norm_num [MAX_HISTORY]
    have e3 : push_state (⟨[S0, S1], 1⟩ : EditorHistory α) S2 = ⟨[S0, S1, S2], 2⟩ := by
      rw [push_state_apply]; norm_num [MAX_HISTORY]
    have e4 : undo (⟨[S0, S1, S2], 2⟩ : EditorHistory α) = (⟨[S0, S1, S2], 1⟩, some S1) := by
      rw [undo_apply]; norm_num
    have e5 : undo (⟨[S0, S1, S2], 1⟩ : EditorHistory α) = (⟨[S0, S1, S2], 0⟩, some S0) := by
      rw [undo_apply]; norm_num
    have e6 : push_state (⟨[S0, S1, S2], 0⟩ : EditorHistory α) S3 = ⟨[S0, S3], 1⟩ := by
      rw [push_state_apply]; norm_num [MAX_HISTORY]
    simp only [e1, e2, e3, e4, e5, e6]
    refine ⟨trivial, trivial, trivial, trivial, ?_, ?_, ?_⟩
    · intro idx x hx
      have hm := go_to_mem _ _ _ hx
      simpa using hm
    · intro x hx
      have hm := undo_mem _ _ hx
      simpa using hm
    · intro x hx
      have hm := redo_mem _ _ hx
      simpa using hm

/-- Witness for Claim C1 at a concrete history. -/
theorem push_state_branch_truncation_witness :
    (0 : Int) ≤ (⟨[10, 20, 30], 0⟩ : EditorHistory Nat).current_index
    ∧ (⟨[10, 20, 30], 0⟩ : EditorHistory Nat).current_index
        < ((⟨[10, 20, 30], 0⟩ : EditorHistory Nat).states.length : Int) - 1
    ∧ (⟨[10, 20, 30], 0⟩ : EditorHistory Nat).states.length ≤ MAX_HISTORY
    ∧ (push_state (⟨[10, 20, 30], 0⟩ : EditorHistory Nat) 40).states = [10, 40] := by
  refine ⟨by decide, by decide, by decide, ?_⟩
  have hgen := (push_state_branch_truncation Nat).1
      ⟨[10, 20, 30], 0⟩ 40 (by decide) (by decide) (by decide)
  rw [hgen.1]
  rfl

/-- A sequence of `push_state` calls on a fresh history (no intervening undo). -/
def push_all (α : Type) (l : List α) : EditorHistory α :=
  l.foldl push_state (EditorHistory.empty α)

/-- A push with no pending redo and spare capacity appends and bumps the index. -/
theorem push_state_linear (h : EditorHistory α) (s : α)
    (hci : h.current_index = (h.states.length : Int) - 1)
    (hlen : h.states.length < MAX_HISTORY) :
    push_state h s = ⟨h.states ++ [s], (h.states.length : Int)⟩ := by
  obtain ⟨l, ci⟩ := h
  simp only at hci hlen ⊢
  rw [push_state_apply,
    if_neg (show ¬ ci < (l.length : Int) - 1 from by omega),
    if_neg (Nat.not_le.mpr hlen)]

/-- A push with no pending redo at full capacity drops the oldest entry. -/
theorem push_state_evict (h : EditorHistory α) (s : α)
    (hci : h.current_index = (h.states.length : Int) - 1)
    (hlen : h.states.length = MAX_HISTORY) :
    push_state h s = ⟨h.states.drop 1 ++ [s], (MAX_HISTORY : Int) - 1⟩ := by
  obtain ⟨l, ci⟩ := h
  simp only at hci hlen ⊢
  rw [push_state_apply,
    if_neg (show ¬ ci < (l.length : Int) - 1 from by omega),
    if_pos (le_of_eq hlen.symm)]
  have hlen1 : (l.drop 1).length = MAX_HISTORY - 1 := by
    rw [List.length_drop, hlen]
  refine congrArg₂ _ rfl ?_
  rw [hlen1]
  have : 1 ≤ MAX_HISTORY := by simp [MAX_HISTORY]
  omega

/-- Pushing at most `MAX_HISTORY` snapshots onto a fresh history just
accumulates them, with `current_index` at the last index. -/
theorem push_all_small (l : List α) (hl : l.length ≤ MAX_HISTORY) :
    push_all α l = ⟨l, (l.length : Int) - 1⟩ := by
  induction l using List.reverseRecOn with
  | nil => simp [push_all, EditorHistory.empty]
  | append_singleton l2 a ih =>
    have hl2 : l2.length < MAX_HISTORY := by
      rw [List.length_append] at hl
      simp at hl
      omega
    rw [push_all, List.foldl_append]
    simp only [List.foldl]
    rw [show l2.foldl push_state (EditorHistory.empty α) = push_all α l2 from rfl,
      ih (le_of_lt hl2), push_state_linear ⟨l2, (l2.length : Int) - 1⟩ a rfl hl2]
    refine congrArg₂ _ rfl ?_
    simp only [List.length_append, List.length_singleton]
    push_cast
    omega

/-- Claim C5: at capacity, `push_state` evicts the oldest entry (decrementing
`current_index` before appending, so that it ends at the last index); pushing
`MAX_HISTORY + 1` snapshots onto a fresh history leaves exactly `MAX_HISTORY`
entries, drops the oldest, and leaves `current_index` at the most recently
pushed entry. -/
theorem push_state_capacity_eviction (α : Type) :
    (∀ (h : EditorHistory α) (s : α),
      h.current_index = (h.states.length : Int) - 1 →
      h.states.length = MAX_HISTORY →
      (push_state h s).states = h.states.drop 1 ++ [s]
        ∧ (push_state h s).states.length = MAX_HISTORY
        ∧ (push_state h s).current_index = (MAX_HISTORY : Int) - 1)
    ∧ ∀ l : List α, l.length = MAX_HISTORY + 1 →
      (push_all α l).states = l.drop 1
        ∧ (push_all α l).states.length = MAX_HISTORY
        ∧ (push_all α l).current_index = (MAX_HISTORY : Int) - 1
        ∧ (push_all α l).states.get? ((push_all α l).current_index).toNat = l.getLast? := by
  have hdrop : ∀ (h : EditorHistory α) (s : α),
      h.current_index = (h.states.length : Int) - 1 →
      h.states.length = MAX_HISTORY →
      push_state h s = ⟨h.states.drop 1 ++ [s], (MAX_HISTORY : Int) - 1⟩ :=
    push_state_evict
  constructor
  · intro h s hci hlen
    rw [hdrop h s hci hlen]
    refine ⟨rfl, ?_, rfl⟩
    simp only [List.length_append, List.length_drop, hlen, List.length_singleton]
    have : 1 ≤ MAX_HISTORY := by simp [MAX_HISTORY]
    omega
  · intro l hl
    rcases l.eq_nil_or_concat with rfl | ⟨l2, a, rfl⟩
    · simp [MAX_HISTORY] at hl
    rw [List.concat_eq_append] at hl ⊢
    have hl2 : l2.length = MAX_HISTORY := by
      rw [List.length_append] at hl
      simpa using hl
    have hpush : push_all α (l2 ++ [a]) = push_state (⟨l2, (l2.length : Int) - 1⟩) a := by
      rw [push_all, List.foldl_append]
      simp only [List.foldl]
      rw [show l2.foldl push_state (EditorHistory.empty α) = push_all α l2 from rfl,
        push_all_small l2 (le_of_eq hl2)]
    have hl2ne : l2 ≠ [] := by
      intro hnil
      rw [hnil] at hl2
      simp [MAX_HISTORY] at hl2
    have hstates : (push_all α (l2 ++ [a])).states = (l2 ++ [a]).drop 1 := by
      rw [hpush, push_state_evict ⟨l2, (l2.length : Int) - 1⟩ a rfl hl2]
      simp only
      rw [List.drop_append_of_le_length (show 1 ≤ l2.length from by
        rw [hl2]; norm_num [MAX_HISTORY])]
    refine ⟨hstates, ?_, ?_, ?_⟩
    · rw [hstates, List.length_drop, hl]
      omega
    · rw [hpush, push_state_evict ⟨l2, (l2.length : Int) - 1⟩ a rfl hl2]
    · rw [hstates, hpush, push_state_evict ⟨l2, (l2.length : Int) - 1⟩ a rfl hl2]
      simp only
      have hMAX : ((MAX_HISTORY : Int) - 1).toNat = MAX_HISTORY - 1 := by
        simp [MAX_HISTORY]
      rw [hMAX, List.get?_drop]
      have hidx : 1 + (MAX_HISTORY - 1) = (l2 ++ [a]).length - 1 := by
        rw [hl]
        have : 1 ≤ MAX_HISTORY := by simp [MAX_HISTORY]
        omega
      rw [hidx, List.getLast?_eq_get?]

/-- Witness for Claim C5 at concrete histories of naturals. -/
theorem push_state_capacity_eviction_witness :
    (⟨List.range 30, 29⟩ : EditorHistory Nat).current_index
        = ((⟨List.range 30, 29⟩ : EditorHistory Nat).states.length : Int) - 1
    ∧ (⟨List.range 30, 29⟩ : EditorHistory Nat).states.length = MAX_HISTORY
    ∧ (push_state (⟨List.range 30, 29⟩ : EditorHistory Nat) 99).states
        = (List.range 30).drop 1 ++ [99]
    ∧ (List.range 31).length = MAX_HISTORY + 1
    ∧ (push_all Nat (List.range 31)).states = (List.range 31).drop 1 := by
  have h1 : (⟨List.range 30, 29⟩ : EditorHistory Nat).current_index
      = ((⟨List.range 30, 29⟩ : EditorHistory Nat).states.length : Int) - 1 := by decide
  have h2 : (⟨List.range 30, 29⟩ : EditorHistory Nat).states.length = MAX_HISTORY := by decide
  have h3 : (List.range 31).length = MAX_HISTORY + 1 := by decide
  exact ⟨h1, h2,
    ((push_state_capacity_eviction Nat).1 ⟨List.range 30, 29⟩ 99 h1 h2).1,
    h3,
    ((push_state_capacity_eviction Nat).2 (List.range 31) h3).1⟩

/-- Claim C9: `go_to` never modifies the states list; a valid index becomes the
new `current_index` and the stored entry there is returned; an out-of-range
index is refused, returning `none` and leaving the history unchanged. -/
theorem go_to_frame (α : Type) (h : EditorHistory α) (idx : Int) :
    (go_to h idx).1.states = h.states
    ∧ (0 ≤ idx → idx < (h.states.length : Int) →
        (go_to h idx).1.current_index = idx
        ∧ ∃ e, h.states.get? idx.toNat = some e ∧ (go_to h idx).2 = some e)
    ∧ (¬ (0 ≤ idx ∧ idx < (h.states.length : Int)) →
        (go_to h idx).1 = h ∧ (go_to h idx).2 = none) := by
  unfold go_to
  by_cases hc : 0 ≤ idx ∧ idx < (h.states.length : Int)
  · rw [if_pos hc]
    refine ⟨rfl, ?_, fun hnc => absurd hc hnc⟩
    intro h0 h1
    have hlt : idx.toNat < h.states.length := by omega
    exact ⟨rfl, ⟨_, List.get?_eq_get hlt, List.get?_eq_get hlt⟩⟩
  · rw [if_neg hc]
    exact ⟨rfl, fun h0 h1 => absurd ⟨h0, h1⟩ hc, fun _ => ⟨rfl, rfl⟩⟩

/-- Witness for Claim C9 at a concrete history, for an in-range and an
out-of-range index. -/
theorem go_to_frame_witness :
    ((0 : Int) ≤ 1 ∧ (1 : Int) < ((⟨[10, 20, 30], 0⟩ : EditorHistory Nat).states.length : Int))
    ∧ (go_to (⟨[10, 20, 30], 0⟩ : EditorHistory Nat) 1).1.current_index = 1
    ∧ ¬ ((0 : Int) ≤ 5 ∧ (5 : Int) < ((⟨[10, 20, 30], 0⟩ : EditorHistory Nat).states.length : Int))
    ∧ (go_to (⟨[10, 20, 30], 0⟩ : EditorHistory Nat) 5).2 = none := by
  refine ⟨⟨by decide, by decide⟩, ?_, by decide, ?_⟩
  · exact ((go_to_frame Nat ⟨[10, 20, 30], 0⟩ 1).2.1 (by decide) (by decide)).1
  · exact ((go_to_frame Nat ⟨[10, 20, 30], 0⟩ 5).2.2 (by decide)).2

/-- `ShapeData` record values from `app.py` (`store`): shape type tag, flat
coordinate list, style fields, optional anchor offsets and group children. -/
structure Shape where
  stype : String
  coords : List ℝ
  fill : Option String
  outline : String
  width : ℝ
  anchors : Option (List Nat)
  children : Option (List Nat)

/-- `Layer` from `app.py`. -/
structure Layer where
  name : String
  visible : Bool
  locked : Bool
  items : List (Nat × String)

/-- `Layer.remove_item`. -/
def Layer.remove_item (lyr : Layer) (item_id : Nat) : Layer :=
  { lyr with items := lyr.items.filter (fun p => p.1 ≠ item_id) }

/-- `ShapeData` from `app.py`: the Python dict `shapes` keyed by canvas item
id becomes an association list. -/
structure ShapeData where
  shapes : List (Nat × Shape)

/-- `ShapeData.get`. -/
def ShapeData.get (sd : ShapeData) (item_id : Nat) : Option Shape :=
  (sd.shapes.find? (fun p => p.1 = item_id)).map Prod.snd

/-- `ShapeData.update_coords`: replaces the coordinate list (a copy of
`new_coords`) if the item is present, otherwise does nothing. -/
def ShapeData.update_coords (sd : ShapeData) (item_id : Nat) (new_coords : List ℝ) :
    ShapeData :=
  ⟨sd.shapes.map (fun p => if p.1 = item_id then (p.1, { p.2 with coords := new_coords }) else p)⟩

/-- `ShapeData.remove`. -/
def ShapeData.remove (sd : ShapeData) (item_id : Nat) : ShapeData :=
  ⟨sd.shapes.filter (fun p => p.1 ≠ item_id)⟩

/-- The per-layer copy loop in `EditorHistory.push_state`
(`Layer(lyr.name, lyr.visible, lyr.locked)` plus a deep copy of `items`);
in a pure model a deep copy is the value itself. -/
def copy_layers (layers : List Layer) : List Layer :=
  layers.map (fun lyr =>
    { name := lyr.name, visible := lyr.visible, locked := lyr.locked, items := lyr.items })

/-- One history entry as stored by `push_state`:
`(shape_data_copy, layers_copy, description)`. -/
def HistoryEntry : Type := List (Nat × Shape) × List Layer × String

/-- The mutable editor fields relevant to the shape store, the layer registry
and the history engine (`SimpleImageEditor`). -/
structure EditorState where
  shape_data : ShapeData
  layers : List Layer
  selected_items : List Nat
  history : EditorHistory HistoryEntry

/-- `SimpleImageEditor.push_history` restricted to the history engine: push a
deep-copied `(shapes, layers, description)` snapshot.  `copy.deepcopy` of the
shapes dict and the layer copies become value snapshots. -/
def push_history (es : EditorState) (description : String) : EditorState :=
  { es with history :=
      push_state es.history (es.shape_data.shapes, copy_layers es.layers, description) }

/-- Mutating the live shape store through `ShapeData.update_coords` (as the
drag handlers do), leaving all other editor fields alone. -/
def apply_update_coords (es : EditorState) (m : Nat × List ℝ) : EditorState :=
  { es with shape_data := es.shape_data.update_coords m.1 m.2 }

/-- The deep-copy loop rebuilds each layer field-by-field, which is the
identity on values. -/
theorem copy_layers_eq (layers : List Layer) : copy_layers layers = layers := by
  simp [copy_layers]

/-- A pushed snapshot is the last stored state. -/
theorem push_state_getLast (h : EditorHistory α) (s : α) :
    (push_state h s).states.getLast? = some s := by
  obtain ⟨l, ci⟩ := h
  rw [push_state_apply]
  simp

/-- `apply_update_coords` never touches the history. -/
theorem foldl_update_history (muts : List (Nat × List ℝ)) (es : EditorState) :
    (muts.foldl apply_update_coords es).history = es.history := by
  induction muts generalizing es with
  | nil => rfl
  | cons m rest ih => rw [List.foldl_cons, ih]; rfl

/-- Claim C2: after `push_history`, any sequence of live `update_coords`
mutations leaves the stored snapshot unchanged: the last history entry still
holds the shapes (type, coords, style, anchors) and layers exactly as they
were at push time.  (`app.py` guarantees this with `copy.deepcopy`, which this
pure model renders as a value snapshot.) -/
theorem snapshot_independence (es : EditorState) (description : String)
    (muts : List (Nat × List ℝ)) :
    (muts.foldl apply_update_coords (push_history es description)).history
        = (push_history es description).history
    ∧ (muts.foldl apply_update_coords (push_history es description)).history.states.getLast?
        = some (es.shape_data.shapes, copy_layers es.layers, description)
    ∧ copy_layers es.layers = es.layers := by
  refine ⟨foldl_update_history muts _, ?_, copy_layers_eq es.layers⟩
  rw [foldl_update_history muts _]
  simp only [push_history]
  exact push_state_getLast es.history _

/-- The pair-filtering loop of `SimpleImageEditor.round_erase_anchor_points`:
keep exactly the coordinate pairs at Euclidean distance at least `radius`
from the eraser point (`math.hypot(...) >= radius`). -/
noncomputable def keep_far_points (ex ey radius : ℝ) : List ℝ → List ℝ
  | cx :: cy :: rest =>
      (if radius ≤ Real.sqrt ((cx - ex)^2 + (cy - ey)^2) then [cx, cy] else [])
        ++ keep_far_points ex ey radius rest
  | _ => []

/-- `SimpleImageEditor.find_layer_of_item` followed by `Layer.remove_item` on
the first layer containing the item (the mutation done in `erase_item`). -/
def erase_item_layers : List Layer → Nat → List Layer
  | [], _ => []
  | lyr :: rest, item_id =>
      if lyr.items.any (fun p => p.1 = item_id) then lyr.remove_item item_id :: rest
      else lyr :: erase_item_layers rest item_id

/-- `SimpleImageEditor.erase_item`: remove the item from its layer, from the
shape store, and from the selection. -/
def erase_item (es : EditorState) (item_id : Nat) : EditorState :=
  { es with
    layers := erase_item_layers es.layers item_id,
    shape_data := es.shape_data.remove item_id,
    selected_items := es.selected_items.filter (fun i => i ≠ item_id) }

/-- `SimpleImageEditor.round_erase_anchor_points`: drop every coordinate pair
within `radius` of the eraser point; if fewer than 4 coordinate entries
survive, delete the whole shape via `erase_item`, otherwise store the
surviving coordinates. -/
noncomputable def round_erase_anchor_points (es : EditorState) (item_id : Nat)
    (ex ey radius : ℝ) : EditorState :=
  match es.shape_data.get item_id with
  | none => es
  | some shape =>
    if shape.stype = "line" ∨ shape.stype = "brush" ∨ shape.stype = "bending_line" then
      let new_coords := keep_far_points ex ey radius shape.coords
      if new_coords.length < 4 then erase_item es item_id
      else { es with shape_data := es.shape_data.update_coords item_id new_coords }
    else es

/-- A two-point line shape, as stored for the `Line` tool. -/
def ex_shape : Shape :=
  { stype := "line", coords := [0, 0, 10, 0], fill := none, outline := "#000000",
    width := 3, anchors := some [], children := none }

/-- A layer holding only the example line. -/
def ex_layer : Layer :=
  { name := "Layer 1", visible := true, locked := false, items := [(1, "line")] }

/-- An editor whose store holds the single two-point line `ex_shape`. -/
def ex_editor : EditorState :=
  { shape_data := ⟨[(1, ex_shape)]⟩, layers := [ex_layer], selected_items := [],
    history := EditorHistory.empty HistoryEntry }

/-- Concrete evaluation of the pair filter: erasing at `(0,0)` with radius 5
keeps only the far endpoint of `[0,0,10,0]`. -/
theorem keep_far_points_ex : keep_far_points 0 0 5 [0, 0, 10, 0] = [10, 0] := by
  have h1 : ¬ (5 : ℝ) ≤ Real.sqrt (((0:ℝ) - 0)^2 + ((0:ℝ) - 0)^2) := by
    rw [show ((0:ℝ) - 0)^2 + ((0:ℝ) - 0)^2 = 0 by norm_num, Real.sqrt_zero]
    norm_num
  have h2 : (5 : ℝ) ≤ Real.sqrt (((10:ℝ) - 0)^2 + ((0:ℝ) - 0)^2) := by
    rw [show ((10:ℝ) - 0)^2 + ((0:ℝ) - 0)^2 = 10^2 by norm_num,
      Real.sqrt_sq (by norm_num : (0:ℝ) ≤ 10)]
    norm_num
  simp only [keep_far_points, if_neg h1, if_pos h2]
  simp

/-- `ShapeData.remove` really removes the item. -/
theorem ShapeData.get_remove (sd : ShapeData) (item_id : Nat) :
    (sd.remove item_id).get item_id = none := by
  obtain ⟨l⟩ := sd
  unfold ShapeData.get ShapeData.remove
  induction l with
  | nil => rfl
  | cons p rest ih =>
    by_cases hp : p.1 = item_id
    · simp [List.filter_cons, hp, ih]
    · simp [List.filter_cons, hp, ih]

/-- `ShapeData.update_coords` replaces exactly the coordinate field of the
looked-up record. -/
theorem ShapeData.get_update_coords (sd : ShapeData) (item_id : Nat) (nc : List ℝ) :
    (sd.update_coords item_id nc).get item_id
      = (sd.get item_id).map (fun s => { s with coords := nc }) := by
  obtain ⟨l⟩ := sd
  unfold ShapeData.get ShapeData.update_coords
  induction l with
  | nil => rfl
  | cons p rest ih =>
    by_cases hp : p.1 = item_id
    · simp [List.find?_cons_of_pos, hp]
    · simp only [List.map_cons, if_neg hp]
      rw [List.find?_cons_of_neg _ (by simpa using hp),
        List.find?_cons_of_neg _ (by simpa using hp)]
      exact ih

/-- Claim C3 counterexample: for the two-point line `[0,0,10,0]`, a round
erase at `(0,0)` with radius 5 would leave fewer than 4 coordinates, and the
code deletes the shape outright (its record is gone from the store) instead
of refusing and leaving the record unchanged. -/
theorem round_erase_two_point_deletes :
    (round_erase_anchor_points ex_editor 1 0 0 5).shape_data.get 1 = none
    ∧ ex_editor.shape_data.get 1 = some ex_shape := by
  have hget : ex_editor.shape_data.get 1 = some ex_shape := rfl
  refine ⟨?_, hget⟩
  unfold round_erase_anchor_points
  rw [hget]
  simp only
  rw [if_pos (Or.inl (show ex_shape.stype = "line" from rfl))]
  rw [show ex_shape.coords = [0, 0, 10, 0] from rfl, keep_far_points_ex]
  rw [if_pos (by norm_num)]
  exact ShapeData.get_remove ex_editor.shape_data 1

/-- Claim C3 amended: `app.py` has no refusal path for the minimum-size
guard.  When a round erase on a line/brush/bending-line record would leave
fewer than 4 coordinate entries, the shape is deleted entirely (removed from
the shape store); when at least 4 entries survive, the record stays with its
coordinates replaced by the surviving pairs (anchors and style untouched). -/
theorem round_erase_min_guard (es : EditorState) (item_id : Nat) (ex ey radius : ℝ)
    (shape : Shape) (hget : es.shape_data.get item_id = some shape)
    (hty : shape.stype = "line" ∨ shape.stype = "brush" ∨ shape.stype = "bending_line") :
    ((keep_far_points ex ey radius shape.coords).length < 4 →
      (round_erase_anchor_points es item_id ex ey radius).shape_data.get item_id = none)
    ∧ (4 ≤ (keep_far_points ex ey radius shape.coords).length →
      (round_erase_anchor_points es item_id ex ey radius).shape_data.get item_id
        = some { shape with coords := keep_far_points ex ey radius shape.coords }) := by
  unfold round_erase_anchor_points
  rw [hget]
  simp only
  rw [if_pos hty]
  constructor
  · intro hlen
    rw [if_pos hlen]
    exact ShapeData.get_remove es.shape_data item_id
  · intro hlen
    rw [if_neg (by omega)]
    simp only
    rw [ShapeData.get_update_coords, hget]
    rfl

/-- Witness for the amended Claim C3 at the concrete two-point line. -/
theorem round_erase_min_guard_witness :
    ex_editor.shape_data.get 1 = some ex_shape
    ∧ (ex_shape.stype = "line" ∨ ex_shape.stype = "brush" ∨ ex_shape.stype = "bending_line")
    ∧ (keep_far_points 0 0 5 ex_shape.coords).length < 4
    ∧ (round_erase_anchor_points ex_editor 1 0 0 5).shape_data.get 1 = none := by
  have hget : ex_editor.shape_data.get 1 = some ex_shape := rfl
  have hlen : (keep_far_points 0 0 5 ex_shape.coords).length < 4 := by
    rw [show ex_shape.coords = [0, 0, 10, 0] from rfl, keep_far_points_ex]
    norm_num
  exact ⟨hget, Or.inl rfl, hlen,
    (round_erase_min_guard ex_editor 1 0 0 5 ex_shape hget (Or.inl rfl)).1 hlen⟩

/-- `SimpleImageEditor.point_segment_dist` from `app.py`: distance from
`(px,py)` to the segment `(x1,y1)-(x2,y2)`; `math.hypot` is the Euclidean
norm, and the projection parameter is compared against 0 and 1 before the
projected point is used. -/
noncomputable def point_segment_dist (px py x1 y1 x2 y2 : ℝ) : ℝ :=
  if (x2 - x1)^2 + (y2 - y1)^2 = 0 then Real.sqrt ((px - x1)^2 + (py - y1)^2)
  else if ((px - x1) * (x2 - x1) + (py - y1) * (y2 - y1)) / ((x2 - x1)^2 + (y2 - y1)^2) < 0
    then Real.sqrt ((px - x1)^2 + (py - y1)^2)
  else if 1 < ((px - x1) * (x2 - x1) + (py - y1) * (y2 - y1)) / ((x2 - x1)^2 + (y2 - y1)^2)
    then Real.sqrt ((px - x2)^2 + (py - y2)^2)
  else
    Real.sqrt
      ((px - (x1 + (((px - x1) * (x2 - x1) + (py - y1) * (y2 - y1))
          / ((x2 - x1)^2 + (y2 - y1)^2)) * (x2 - x1)))^2
        + (py - (y1 + (((px - x1) * (x2 - x1) + (py - y1) * (y2 - y1))
          / ((x2 - x1)^2 + (y2 - y1)^2)) * (y2 - y1)))^2)

/-- Modelled from the spec: the "standard clamped-projection distance" of
`PointSegmentDistance` — clamp the projection parameter to `[0,1]`, then take
the Euclidean distance to the projected point; for a degenerate segment
(`a == b`) the Euclidean distance to `a`.  Used only to compare the code
against the spec wording. -/
noncomputable def clamped_projection_dist (px py x1 y1 x2 y2 : ℝ) : ℝ :=
  if x1 = x2 ∧ y1 = y2 then Real.sqrt ((px - x1)^2 + (py - y1)^2)
  else
    Real.sqrt
      ((px - (x1 + (max 0 (min 1 (((px - x1) * (x2 - x1) + (py - y1) * (y2 - y1))
          / ((x2 - x1)^2 + (y2 - y1)^2)))) * (x2 - x1)))^2
        + (py - (y1 + (max 0 (min 1 (((px - x1) * (x2 - x1) + (py - y1) * (y2 - y1))
          / ((x2 - x1)^2 + (y2 - y1)^2)))) * (y2 - y1)))^2)

/-- Claim C4 counterexample: the spec sample
`PointSegmentDistance((0,0), (0,-5), (0,5)) == 5` is wrong — the point
`(0,0)` lies on the segment from `(0,-5)` to `(0,5)`, so the code returns
distance `0`, not `5`. -/
theorem point_segment_dist_sample_counterexample :
    point_segment_dist 0 0 0 (-5) 0 5 = 0 ∧ point_segment_dist 0 0 0 (-5) 0 5 ≠ 5 := by
  have h : point_segment_dist 0 0 0 (-5) 0 5 = 0 := by
    unfold point_segment_dist
    norm_num
  exact ⟨h, by rw [h]; norm_num⟩

/-- Claim C4 amended: `point_segment_dist` agrees everywhere with the
clamped-projection distance of the spec (including the degenerate `a == b`
case); on the spec samples, the first evaluates to `0` (the point lies on
the segment), and the second to `5` as stated. -/
theorem point_segment_dist_clamped_projection :
    (∀ px py x1 y1 x2 y2 : ℝ,
      point_segment_dist px py x1 y1 x2 y2 = clamped_projection_dist px py x1 y1 x2 y2)
    ∧ point_segment_dist 0 0 0 (-5) 0 5 = 0
    ∧ point_segment_dist 10 0 0 0 5 0 = 5 := by
  refine ⟨?_, ?_, ?_⟩
  · intro px py x1 y1 x2 y2
    unfold point_segment_dist clamped_projection_dist
    by_cases hdeg : (x2 - x1)^2 + (y2 - y1)^2 = 0
    · have hx : x1 = x2 ∧ y1 = y2 := by
        constructor <;> nlinarith [sq_nonneg (x2 - x1), sq_nonneg (y2 - y1)]
      rw [if_pos hdeg, if_pos hx]
    · have hx : ¬ (x1 = x2 ∧ y1 = y2) := by
        rintro ⟨hx1, hy1⟩
        apply hdeg
        rw [hx1, hy1]
        ring
      rw [if_neg hdeg, if_neg hx]
      set t := ((px - x1) * (x2 - x1) + (py - y1) * (y2 - y1))
          / ((x2 - x1)^2 + (y2 - y1)^2) with ht
      by_cases ht0 : t < 0
      · rw [if_pos ht0]
        have hclamp : max 0 (min 1 t) = 0 :=
          max_eq_left (le_trans (min_le_right 1 t) (le_of_lt ht0))
        rw [hclamp]
        congr 1
        ring
      · by_cases ht1 : 1 < t
        · rw [if_neg ht0, if_pos ht1]
          have hclamp : max 0 (min 1 t) = 1 := by
            rw [min_eq_left (le_of_lt ht1)]
            exact max_eq_right zero_le_one
          rw [hclamp]
          congr 1
          ring
        · rw [if_neg ht0, if_neg ht1]
          have hclamp : max 0 (min 1 t) = t := by
            rw [min_eq_right (not_lt.mp ht1)]
            exact max_eq_right (not_lt.mp ht0)
          rw [hclamp]
  · unfold point_segment_dist
    norm_num
  · have h25 : ((10:ℝ) - 5)^2 + ((0:ℝ) - 0)^2 = 5^2 := by norm_num
    unfold point_segment_dist
    rw [if_neg (by norm_num), if_neg (by norm_num), if_pos (by norm_num), h25,
      Real.sqrt_sq (by norm_num : (0:ℝ) ≤ 5)]

/-- `SimpleImageEditor.bend_tool_a_push` from `app.py`: for each coordinate
pair strictly within `radius` of the drag origin `(last_x, last_y)`, add the
drag delta scaled by the linear falloff `1 - dist/radius`; pairs at or beyond
the radius are untouched.  (`bend_tool_b_push` is the same loop with
`BEND_RADIUS_B`.) -/
noncomputable def bend_tool_a_push (last_x last_y mx my radius : ℝ) : List ℝ → List ℝ
  | px :: py :: rest =>
      (if Real.sqrt ((px - last_x)^2 + (py - last_y)^2) < radius then
        [px + (mx - last_x) * (1 - Real.sqrt ((px - last_x)^2 + (py - last_y)^2) / radius),
         py + (my - last_y) * (1 - Real.sqrt ((px - last_x)^2 + (py - last_y)^2) / radius)]
      else [px, py]) ++ bend_tool_a_push last_x last_y mx my radius rest
  | rest => rest

/-- `bend_tool_a_push` preserves the number of coordinates. -/
theorem bend_tool_a_push_length (lx ly mx my radius : ℝ) (l : List ℝ) :
    (bend_tool_a_push lx ly mx my radius l).length = l.length := by
  induction l using bend_tool_a_push.induct lx ly mx my radius with
  | case1 px py rest ih =>
    rw [bend_tool_a_push, List.length_append, ih]
    split <;> simp <;> omega
  | case2 rest h =>
    rw [bend_tool_a_push]
    exact h

/-- Pairwise characterization of `bend_tool_a_push` at even/odd offsets. -/
theorem bend_tool_a_push_getD (lx ly mx my radius : ℝ) :
    ∀ (j : Nat) (l : List ℝ), 2*j+1 < l.length →
      (bend_tool_a_push lx ly mx my radius l).getD (2*j) 0
          = (if Real.sqrt ((l.getD (2*j) 0 - lx)^2 + (l.getD (2*j+1) 0 - ly)^2) < radius
             then l.getD (2*j) 0 + (mx - lx)
                * (1 - Real.sqrt ((l.getD (2*j) 0 - lx)^2 + (l.getD (2*j+1) 0 - ly)^2) / radius)
             else l.getD (2*j) 0)
      ∧ (bend_tool_a_push lx ly mx my radius l).getD (2*j+1) 0
          = (if Real.sqrt ((l.getD (2*j) 0 - lx)^2 + (l.getD (2*j+1) 0 - ly)^2) < radius
             then l.getD (2*j+1) 0 + (my - ly)
                * (1 - Real.sqrt ((l.getD (2*j) 0 - lx)^2 + (l.getD (2*j+1) 0 - ly)^2) / radius)
             else l.getD (2*j+1) 0) := by
  intro j
  induction j with
  | zero =>
    intro l hl
    match l with
    | [] => simp at hl
    | [x] => simp at hl
    | px :: py :: rest =>
      rw [bend_tool_a_push]
      norm_num [List.getD_cons_zero, List.getD_cons_succ]
      split <;> simp [List.getD_cons_zero, List.getD_cons_succ]
  | succ j ih =>
    intro l hl
    match l with
    | [] => simp at hl
    | [x] => simp at hl
    | px :: py :: rest =>
      have hrest : 2*j+1 < rest.length := by
        simp only [List.length_cons] at hl
        omega
      have h2 : 2*(j+1) = (2*j+1)+1 := by ring
      obtain ⟨ihx, ihy⟩ := ih rest hrest
      rw [bend_tool_a_push, h2]
      constructor
      · split <;> simpa [List.getD_cons_succ] using ihx
      · split <;> simpa [List.getD_cons_succ] using ihy

/-- Claim C8: `bend_tool_a_push` (RadialPush) leaves every coordinate pair at
distance `radius` or more from the drag origin unchanged, and displaces each
pair strictly within the radius by the drag delta scaled by the linear
falloff `1 - dist/radius`; the coordinate count is preserved. -/
theorem bend_tool_a_push_radial_locality (lx ly mx my radius : ℝ) (coords : List ℝ)
    (j : Nat) (hj : 2*j+1 < coords.length) :
    (bend_tool_a_push lx ly mx my radius coords).length = coords.length
    ∧ (radius ≤ Real.sqrt ((coords.getD (2*j) 0 - lx)^2 + (coords.getD (2*j+1) 0 - ly)^2) →
        (bend_tool_a_push lx ly mx my radius coords).getD (2*j) 0 = coords.getD (2*j) 0
        ∧ (bend_tool_a_push lx ly mx my radius coords).getD (2*j+1) 0 = coords.getD (2*j+1) 0)
    ∧ (Real.sqrt ((coords.getD (2*j) 0 - lx)^2 + (coords.getD (2*j+1) 0 - ly)^2) < radius →
        (bend_tool_a_push lx ly mx my radius coords).getD (2*j) 0
            = coords.getD (2*j) 0 + (mx - lx)
              * (1 - Real.sqrt ((coords.getD (2*j) 0 - lx)^2
                  + (coords.getD (2*j+1) 0 - ly)^2) / radius)
        ∧ (bend_tool_a_push lx ly mx my radius coords).getD (2*j+1) 0
            = coords.getD (2*j+1) 0 + (my - ly)
              * (1 - Real.sqrt ((coords.getD (2*j) 0 - lx)^2
                  + (coords.getD (2*j+1) 0 - ly)^2) / radius)) := by
  obtain ⟨hx, hy⟩ := bend_tool_a_push_getD lx ly mx my radius j coords hj
  refine ⟨bend_tool_a_push_length lx ly mx my radius coords, ?_, ?_⟩
  · intro hfar
    rw [hx, hy, if_neg (not_lt.mpr hfar), if_neg (not_lt.mpr hfar)]
    exact ⟨rfl, rfl⟩
  · intro hnear
    rw [hx, hy, if_pos hnear, if_pos hnear]
    exact ⟨rfl, rfl⟩

/-- Witness for Claim C8: the pair `(3,4)` at distance 5 from the origin is
unchanged for radius 5, and displaced with falloff `1 - 5/6` for radius 6. -/
theorem bend_tool_a_push_radial_locality_witness :
    (2*0+1 < ([3, 4] : List ℝ).length
      ∧ (5 : ℝ) ≤ Real.sqrt ((([3, 4] : List ℝ).getD 0 0 - 0)^2
          + (([3, 4] : List ℝ).getD 1 0 - 0)^2)
      ∧ (bend_tool_a_push 0 0 1 1 5 [3, 4]).getD 0 0 = ([3, 4] : List ℝ).getD 0 0)
    ∧ (Real.sqrt ((([3, 4] : List ℝ).getD 0 0 - 0)^2
          + (([3, 4] : List ℝ).getD 1 0 - 0)^2) < 6
      ∧ (bend_tool_a_push 0 0 1 1 6 [3, 4]).getD 0 0
          = ([3, 4] : List ℝ).getD 0 0 + (1 - 0)
            * (1 - Real.sqrt ((([3, 4] : List ℝ).getD 0 0 - 0)^2
                + (([3, 4] : List ℝ).getD 1 0 - 0)^2) / 6)) := by
  have hlen : 2*0+1 < ([3, 4] : List ℝ).length := by norm_num
  have hsqrt : Real.sqrt ((([3, 4] : List ℝ).getD 0 0 - 0)^2
      + (([3, 4] : List ℝ).getD 1 0 - 0)^2) = 5 := by
    rw [show (([3, 4] : List ℝ).getD 0 0 - 0)^2 + (([3, 4] : List ℝ).getD 1 0 - 0)^2
        = 5^2 by norm_num [List.getD], Real.sqrt_sq (by norm_num : (0:ℝ) ≤ 5)]
  constructor
  · refine ⟨hlen, by rw [hsqrt], ?_⟩
    have h := (bend_tool_a_push_radial_locality 0 0 1 1 5 [3, 4] 0 hlen).2.1
    exact (h (by rw [hsqrt])).1
  · refine ⟨by rw [hsqrt]; norm_num, ?_⟩
    have h := (bend_tool_a_push_radial_locality 0 0 1 1 6 [3, 4] 0 hlen).2.2
    exact (h (by rw [hsqrt]; norm_num)).1

/-- Helper: `List.set` at a different index does not change `getD`. -/
theorem getD_set_ne (l : List ℝ) (i j : Nat) (a d : ℝ) (h : i ≠ j) :
    (l.set i a).getD j d = l.getD j d := by
  simp [List.getD_eq_getElem?_getD, List.getElem?_set_ne h]

/-- Helper: `List.set` at an in-range index stores the value. -/
theorem getD_set_self (l : List ℝ) (i : Nat) (a d : ℝ) (h : i < l.length) :
    (l.set i a).getD i d = a := by
  simp [List.getD_eq_getElem?_getD, List.getElem?_set_self, h]

/-- The write loop of `SimpleImageEditor.local_anchor_interpolation` (and of
`apply_anchor_interpolation` between one pair of anchors): after `k` of the
`num_points` iterations, the coordinate pairs at offsets
`start_idx + 2*i` for `i = 1..k` hold the linear interpolation between
`(x1,y1)` and `(x2,y2)` at parameter `t = i/(num_points+1)`. -/
noncomputable def interpolation_writes (x1 y1 x2 y2 : ℝ) (start_idx num_points : Nat)
    (c : List ℝ) : Nat → List ℝ
  | 0 => c
  | k+1 =>
      ((interpolation_writes x1 y1 x2 y2 start_idx num_points c k).set
          (start_idx + 2*(k+1))
          ((1 - ((k:ℝ)+1)/((num_points:ℝ)+1)) * x1 + (((k:ℝ)+1)/((num_points:ℝ)+1)) * x2)).set
        (start_idx + 2*(k+1) + 1)
          ((1 - ((k:ℝ)+1)/((num_points:ℝ)+1)) * y1 + (((k:ℝ)+1)/((num_points:ℝ)+1)) * y2)

/-- `SimpleImageEditor.local_anchor_interpolation` from `app.py`: swap the
offsets if needed, read the two anchor points, and re-sample the
`(end-start)/2 - 1` intermediate pairs evenly between them. -/
noncomputable def local_anchor_interpolation (coords : List ℝ) (start_idx end_idx : Nat) :
    List ℝ :=
  interpolation_writes
    (coords.getD (min start_idx end_idx) 0) (coords.getD (min start_idx end_idx + 1) 0)
    (coords.getD (max start_idx end_idx) 0) (coords.getD (max start_idx end_idx + 1) 0)
    (min start_idx end_idx)
    ((max start_idx end_idx - min start_idx end_idx)/2 - 1)
    coords
    ((max start_idx end_idx - min start_idx end_idx)/2 - 1)

/-- The write loop preserves the list length. -/
theorem interpolation_writes_length (x1 y1 x2 y2 : ℝ) (s num : Nat) (c : List ℝ) :
    ∀ k : Nat, (interpolation_writes x1 y1 x2 y2 s num c k).length = c.length := by
  intro k
  induction k with
  | zero => rfl
  | succ k ih =>
    simp only [interpolation_writes, List.length_set]
    exact ih

/-- The write loop touches only offsets `s+2 .. s+2k+1`. -/
theorem interpolation_writes_getD_frame (x1 y1 x2 y2 : ℝ) (s num : Nat) (c : List ℝ) :
    ∀ (k : Nat) (j : Nat), (j < s + 2 ∨ s + 2*k + 2 ≤ j) →
      (interpolation_writes x1 y1 x2 y2 s num c k).getD j 0 = c.getD j 0 := by
  intro k
  induction k with
  | zero => intro j hj; rfl
  | succ k ih =>
    intro j hj
    simp only [interpolation_writes]
    rw [getD_set_ne _ (s + 2*(k+1) + 1) j _ _ (by omega),
      getD_set_ne _ (s + 2*(k+1)) j _ _ (by omega)]
    exact ih j (by omega)

/-- The write loop stores the interpolated values at offsets `s+2i`, `s+2i+1`
for `1 ≤ i ≤ k`. -/
theorem interpolation_writes_getD_value (x1 y1 x2 y2 : ℝ) (s num : Nat) (c : List ℝ) :
    ∀ (k : Nat) (i : Nat), 1 ≤ i → i ≤ k → s + 2*i + 1 < c.length →
      (interpolation_writes x1 y1 x2 y2 s num c k).getD (s + 2*i) 0
          = (1 - (i:ℝ)/((num:ℝ)+1)) * x1 + ((i:ℝ)/((num:ℝ)+1)) * x2
      ∧ (interpolation_writes x1 y1 x2 y2 s num c k).getD (s + 2*i + 1) 0
          = (1 - (i:ℝ)/((num:ℝ)+1)) * y1 + ((i:ℝ)/((num:ℝ)+1)) * y2 := by
  intro k
  induction k with
  | zero => intro i h1 h2 h3; omega
  | succ k ih =>
    intro i h1 h2 h3
    by_cases hik : i = k + 1
    · subst hik
      have hlen : (interpolation_writes x1 y1 x2 y2 s num c k).length = c.length :=
        interpolation_writes_length x1 y1 x2 y2 s num c k
      have hcast : ((k:ℝ)+1) = ((k+1 : Nat) : ℝ) := by push_cast; ring
      simp only [interpolation_writes]
      constructor
      · rw [getD_set_ne _ (s + 2*(k+1) + 1) (s + 2*(k+1)) _ _ (by omega),
          getD_set_self _ (s + 2*(k+1)) _ _ (by rw [hlen]; omega), hcast]
      · rw [getD_set_self _ (s + 2*(k+1) + 1) _ _
            (by simp only [List.length_set]; rw [hlen]; omega), hcast]
    · have hik2 : i ≤ k := by omega
      simp only [interpolation_writes]
      rw [getD_set_ne _ (s + 2*(k+1) + 1) (s + 2*i) _ _ (by omega),
        getD_set_ne _ (s + 2*(k+1)) (s + 2*i) _ _ (by omega),
        getD_set_ne _ (s + 2*(k+1) + 1) (s + 2*i + 1) _ _ (by omega),
        getD_set_ne _ (s + 2*(k+1)) (s + 2*i + 1) _ _ (by omega)]
      exact ih i h1 hik2 h3

/-- Claim C7: for anchor offsets `a < b`, `local_anchor_interpolation` keeps
the count of coordinates, leaves the pairs at `a..a+1` and `b..b+1` and every
pair outside `(a,b)` unchanged, and re-samples the pairs strictly between
evenly on the straight line from the point at `a` to the point at `b`. -/
theorem local_anchor_interpolation_frame (coords : List ℝ) (a b : Nat) (hab : a < b) :
    (local_anchor_interpolation coords a b).length = coords.length
    ∧ (∀ j, j < a + 2 → (local_anchor_interpolation coords a b).getD j 0 = coords.getD j 0)
    ∧ (∀ j, b ≤ j → (local_anchor_interpolation coords a b).getD j 0 = coords.getD j 0)
    ∧ (∀ i, 1 ≤ i → i ≤ (b - a)/2 - 1 → b + 1 < coords.length →
        (local_anchor_interpolation coords a b).getD (a + 2*i) 0
            = (1 - (i:ℝ)/((((b - a)/2 - 1 : Nat):ℝ)+1)) * coords.getD a 0
              + ((i:ℝ)/((((b - a)/2 - 1 : Nat):ℝ)+1)) * coords.getD b 0
        ∧ (local_anchor_interpolation coords a b).getD (a + 2*i + 1) 0
            = (1 - (i:ℝ)/((((b - a)/2 - 1 : Nat):ℝ)+1)) * coords.getD (a+1) 0
              + ((i:ℝ)/((((b - a)/2 - 1 : Nat):ℝ)+1)) * coords.getD (b+1) 0) := by
  have hmin : min a b = a := min_eq_left (le_of_lt hab)
  have hmax : max a b = b := max_eq_right (le_of_lt hab)
  unfold local_anchor_interpolation
  rw [hmin, hmax]
  refine ⟨interpolation_writes_length _ _ _ _ _ _ _ _, ?_, ?_, ?_⟩
  · intro j hj
    exact interpolation_writes_getD_frame _ _ _ _ _ _ _ _ _ (Or.inl hj)
  · intro j hj
    by_cases hnum : (b - a)/2 - 1 = 0
    · rw [hnum]
      rfl
    · exact interpolation_writes_getD_frame _ _ _ _ _ _ _ _ _ (Or.inr (by omega))
  · intro i h1 h2 h3
    exact interpolation_writes_getD_value _ _ _ _ _ _ _ _ _ h1 h2 (by omega)

/-- Witness for Claim C7: interpolating `[0,0,99,99,10,20]` between anchors
`0` and `4` rewrites only the middle pair, to the midpoint `(5,10)`. -/
theorem local_anchor_interpolation_frame_witness :
    (0 : Nat) < 4
    ∧ (local_anchor_interpolation [0, 0, 99, 99, 10, 20] 0 4).getD 0 0
        = ([0, 0, 99, 99, 10, 20] : List ℝ).getD 0 0
    ∧ (local_anchor_interpolation [0, 0, 99, 99, 10, 20] 0 4).getD 4 0
        = ([0, 0, 99, 99, 10, 20] : List ℝ).getD 4 0
    ∧ (local_anchor_interpolation [0, 0, 99, 99, 10, 20] 0 4).getD (0 + 2*1) 0 = 5 := by
  have hab : (0 : Nat) < 4 := by norm_num
  have h := local_anchor_interpolation_frame [0, 0, 99, 99, 10, 20] 0 4 hab
  refine ⟨hab, h.2.1 0 (by norm_num), h.2.2.1 4 (by norm_num), ?_⟩
  have hv := (h.2.2.2 1 (by norm_num) (by norm_num) (by norm_num)).1
  rw [hv]
  norm_num [List.getD]
/-- The scan loop of `SimpleImageEditor.find_closest_segment_index`: walk the
consecutive coordinate pairs, keeping the first segment start offset whose
distance is strictly smaller than the best so far (`best = none` plays the
role of the initial `float("inf")`). -/
noncomputable def find_closest_segment_aux (mx my : ℝ) :
    List ℝ → Nat → Option (Nat × ℝ) → Option (Nat × ℝ)
  | x1 :: y1 :: x2 :: y2 :: rest, i, best =>
      find_closest_segment_aux mx my (x2 :: y2 :: rest) (i+2)
        (match best with
         | none => some (i, point_segment_dist mx my x1 y1 x2 y2)
         | some (bi, bd) =>
             if point_segment_dist mx my x1 y1 x2 y2 < bd
             then some (i, point_segment_dist mx my x1 y1 x2 y2)
             else some (bi, bd))
  | _, _, best => best

/-- `SimpleImageEditor.find_closest_segment_index` from `app.py`. -/
noncomputable def find_closest_segment_index (mx my : ℝ) (coords : List ℝ) : Option Nat :=
  (find_closest_segment_aux mx my coords 0 none).map Prod.fst

/-- The core of `SimpleImageEditor.handle_add_anchor_click` from `app.py`
(after the canvas lookup): find the closest segment, compute the insertion
point (the segment start for a nearly degenerate segment, otherwise the
clamped projection of the click), splice it into `coords` right after the
segment start, and register the new offset in the sorted anchor list. -/
noncomputable def handle_add_anchor_click (coords : List ℝ) (anchors : List Nat)
    (mx my : ℝ) : List ℝ × List Nat :=
  match find_closest_segment_index mx my coords with
  | none => (coords, anchors)
  | some seg_i =>
      let x1 := coords.getD seg_i 0
      let y1 := coords.getD (seg_i+1) 0
      let x2 := coords.getD (seg_i+2) 0
      let y2 := coords.getD (seg_i+3) 0
      let seg_len_sq := (x2 - x1)^2 + (y2 - y1)^2
      let inserted :=
        if seg_len_sq < 1/10^10 then (x1, y1)
        else
          (x1 + (max 0 (min 1 (((mx - x1)*(x2 - x1) + (my - y1)*(y2 - y1)) / seg_len_sq)))
              * (x2 - x1),
           y1 + (max 0 (min 1 (((mx - x1)*(x2 - x1) + (my - y1)*(y2 - y1)) / seg_len_sq)))
              * (y2 - y1))
      (coords.take (seg_i+2) ++ [inserted.1, inserted.2] ++ coords.drop (seg_i+2),
       (anchors ++ [seg_i+2]).insertionSort (· ≤ ·))

/-- Splicing a pair right after offset `i+2` keeps everything before it,
shifts everything from `i+2` on by two slots, and stores the pair at
`i+2`, `i+3`. -/
theorem splice_facts (c : List ℝ) (i : Nat) (u v : ℝ) (hb : i + 4 ≤ c.length) :
    (c.take (i+2) ++ [u, v] ++ c.drop (i+2)).length = c.length + 2
    ∧ (∀ j, j < i + 2 → (c.take (i+2) ++ [u, v] ++ c.drop (i+2)).getD j 0 = c.getD j 0)
    ∧ (∀ k, (c.take (i+2) ++ [u, v] ++ c.drop (i+2)).getD (i+4+k) 0 = c.getD (i+2+k) 0)
    ∧ (c.take (i+2) ++ [u, v] ++ c.drop (i+2)).getD (i+2) 0 = u
    ∧ (c.take (i+2) ++ [u, v] ++ c.drop (i+2)).getD (i+3) 0 = v := by
  have htake : (c.take (i+2)).length = i + 2 := by
    rw [List.length_take]
    omega
  have hpre : (c.take (i+2) ++ [u, v]).length = i + 4 := by
    rw [List.length_append, htake]
    rfl
  refine ⟨?_, ?_, ?_, ?_, ?_⟩
  · rw [List.length_append, hpre, List.length_drop]
    omega
  · intro j hj
    rw [List.getD_append _ _ _ _ (by rw [hpre]; omega),
      List.getD_append _ _ _ _ (by rw [htake]; omega),
      List.getD_eq_getElem?_getD, List.getElem?_take, if_pos hj,
      ← List.getD_eq_getElem?_getD]
  · intro k
    rw [List.getD_append_right _ _ _ _ (by rw [hpre]; omega), hpre,
      show i+4+k - (i+4) = k from by omega,
      List.getD_eq_getElem?_getD, List.getElem?_drop,
      ← List.getD_eq_getElem?_getD]
  · rw [List.getD_append _ _ _ _ (by rw [hpre]; omega),
      List.getD_append_right _ _ _ _ htake.le, htake,
      show i+2 - (i+2) = 0 from by omega]
    rfl
  · rw [List.getD_append _ _ _ _ (by rw [hpre]; omega),
      List.getD_append_right _ _ _ _ (by rw [htake]; omega), htake,
      show i+3 - (i+2) = 1 from by omega]
    rfl

/-- Every segment offset recorded by the scan loop is the start of a full
segment: four coordinate entries exist from it on. -/
theorem find_closest_segment_aux_bound (mx my : ℝ) :
    ∀ (l : List ℝ) (pos : Nat) (best : Option (Nat × ℝ)),
      (∀ bi bd, best = some (bi, bd) → bi + 4 ≤ pos + l.length) →
      ∀ i d, find_closest_segment_aux mx my l pos best = some (i, d) →
        i + 4 ≤ pos + l.length := by
  intro l pos best
  induction l, pos, best using find_closest_segment_aux.induct mx my with
  | case1 x1 y1 x2 y2 rest pos best ih =>
    intro hbest i d hfind
    simp only [find_closest_segment_aux] at hfind
    have hstep : i + 4 ≤ pos + 2 + (x2 :: y2 :: rest).length := by
      apply ih _ i d hfind
      intro bi bd hbd
      rcases best with _ | ⟨bj, bdj⟩
      · simp only [Option.some.injEq, Prod.mk.injEq] at hbd
        simp only [List.length_cons]
        omega
      · simp only at hbd
        split at hbd <;> simp only [Option.some.injEq, Prod.mk.injEq] at hbd
        · simp only [List.length_cons]
          omega
        · have hbj := hbest bj bdj rfl
          simp only [List.length_cons] at hbj ⊢
          omega
    simp only [List.length_cons] at hstep ⊢
    omega
  | case2 l pos best h =>
    intro hbest i d hfind
    have hunfold : find_closest_segment_aux mx my l pos best = best := by
      rw [find_closest_segment_aux]
      exact h
    rw [hunfold] at hfind
    exact hbest i d hfind

/-- A `some` result of `find_closest_segment_index` is an in-range segment
start offset. -/
theorem find_closest_segment_index_bound (mx my : ℝ) (coords : List ℝ) (i : Nat)
    (h : find_closest_segment_index mx my coords = some i) : i + 4 ≤ coords.length := by
  unfold find_closest_segment_index at h
  rw [Option.map_eq_some'] at h
  obtain ⟨⟨i2, d⟩, haux, rfl⟩ := h
  simpa using find_closest_segment_aux_bound mx my coords 0 none
    (by intro bi bd hbd; cases hbd) i2 d haux

/-- With fewer than two points there is no segment: the scan returns `none`. -/
theorem find_closest_segment_index_short (mx my : ℝ) (coords : List ℝ)
    (h : coords.length < 4) : find_closest_segment_index mx my coords = none := by
  unfold find_closest_segment_index
  rcases coords with _ | ⟨a, _ | ⟨b, _ | ⟨c, _ | ⟨d, rest⟩⟩⟩⟩
  · simp [find_closest_segment_aux]
  · simp [find_closest_segment_aux]
  · simp [find_closest_segment_aux]
  · simp [find_closest_segment_aux]
  · simp at h
    omega

/-- Claim C6 counterexample: for `coords = [0,0,10,0]` — a record with a
single segment, hence "fewer than 2 segments" — clicking at `(2,5)` inserts
the clamped projection `(2,0)`, not the segment midpoint `(5,0)`.  (With no
segment at all the operation is a no-op, also not a midpoint insertion.) -/
theorem handle_add_anchor_click_not_midpoint :
    (handle_add_anchor_click [0, 0, 10, 0] [] 2 5).1 = [0, 0, 2, 0, 10, 0]
    ∧ (handle_add_anchor_click [0, 0, 10, 0] [] 2 5).1 ≠ [0, 0, 5, 0, 10, 0]
    ∧ (handle_add_anchor_click [0, 0, 10, 0] [] 2 5).2 = [2] := by
  have hfind : find_closest_segment_index 2 5 [0, 0, 10, 0] = some 0 := by
    simp [find_closest_segment_index, find_closest_segment_aux]
  have g0 : ([0, 0, 10, 0] : List ℝ).getD 0 0 = 0 := rfl
  have g1 : ([0, 0, 10, 0] : List ℝ).getD (0+1) 0 = 0 := rfl
  have g2 : ([0, 0, 10, 0] : List ℝ).getD (0+2) 0 = 10 := rfl
  have g3 : ([0, 0, 10, 0] : List ℝ).getD (0+3) 0 = 0 := rfl
  have heval : handle_add_anchor_click [0, 0, 10, 0] [] 2 5
      = ([0, 0, 2, 0, 10, 0], [2]) := by
    unfold handle_add_anchor_click
    rw [hfind]
    simp only [g0, g1, g2, g3]
    rw [if_neg (by norm_num)]
    have htk : ([0, 0, 10, 0] : List ℝ).take (0+2) = [0, 0] := rfl
    have hdp : ([0, 0, 10, 0] : List ℝ).drop (0+2) = [10, 0] := rfl
    rw [htk, hdp]
    norm_num [min_def, max_def, List.insertionSort, List.orderedInsert]
  rw [heval]
  refine ⟨rfl, ?_, rfl⟩
  intro hcontra
  norm_num at hcontra

/-- Claim C6 amended: `handle_add_anchor_click` locates the closest segment
and is a no-op when there is none (in particular whenever `coords` has fewer
than 4 entries) — there is no midpoint-insertion fallback.  When a segment
`i` is found, it splices one pair right after the segment start (length grows
by 2, earlier entries stay, later entries shift by two slots), keeps the
anchor list sorted with the new offset `i+2` registered, inserts the
segment start point itself if the segment is nearly degenerate
(`seg_len_sq < 1e-10`), and otherwise inserts the clamped projection of the
click onto the segment. -/
theorem handle_add_anchor_click_spec (coords : List ℝ) (anchors : List Nat) (mx my : ℝ) :
    (find_closest_segment_index mx my coords = none →
      handle_add_anchor_click coords anchors mx my = (coords, anchors))
    ∧ (coords.length < 4 → handle_add_anchor_click coords anchors mx my = (coords, anchors))
    ∧ ∀ i, find_closest_segment_index mx my coords = some i →
        (handle_add_anchor_click coords anchors mx my).1.length = coords.length + 2
        ∧ (∀ j, j < i + 2 → (handle_add_anchor_click coords anchors mx my).1.getD j 0
              = coords.getD j 0)
        ∧ (∀ k, (handle_add_anchor_click coords anchors mx my).1.getD (i+4+k) 0
              = coords.getD (i+2+k) 0)
        ∧ List.Sorted (· ≤ ·) (handle_add_anchor_click coords anchors mx my).2
        ∧ (i+2) ∈ (handle_add_anchor_click coords anchors mx my).2
        ∧ ((coords.getD (i+2) 0 - coords.getD i 0)^2
              + (coords.getD (i+3) 0 - coords.getD (i+1) 0)^2 < 1/10^10 →
            (handle_add_anchor_click coords anchors mx my).1.getD (i+2) 0 = coords.getD i 0
            ∧ (handle_add_anchor_click coords anchors mx my).1.getD (i+3) 0
                = coords.getD (i+1) 0)
        ∧ (1/10^10 ≤ (coords.getD (i+2) 0 - coords.getD i 0)^2
              + (coords.getD (i+3) 0 - coords.getD (i+1) 0)^2 →
            (handle_add_anchor_click coords anchors mx my).1.getD (i+2) 0
                = coords.getD i 0
                  + (max 0 (min 1 (((mx - coords.getD i 0)*(coords.getD (i+2) 0 - coords.getD i 0)
                        + (my - coords.getD (i+1) 0)*(coords.getD (i+3) 0 - coords.getD (i+1) 0))
                      / ((coords.getD (i+2) 0 - coords.getD i 0)^2
                        + (coords.getD (i+3) 0 - coords.getD (i+1) 0)^2))))
                    * (coords.getD (i+2) 0 - coords.getD i 0)
            ∧ (handle_add_anchor_click coords anchors mx my).1.getD (i+3) 0
                = coords.getD (i+1) 0
                  + (max 0 (min 1 (((mx - coords.getD i 0)*(coords.getD (i+2) 0 - coords.getD i 0)
                        + (my - coords.getD (i+1) 0)*(coords.getD (i+3) 0 - coords.getD (i+1) 0))
                      / ((coords.getD (i+2) 0 - coords.getD i 0)^2
                        + (coords.getD (i+3) 0 - coords.getD (i+1) 0)^2))))
                    * (coords.getD (i+3) 0 - coords.getD (i+1) 0)) := by
  have hnone : find_closest_segment_index mx my coords = none →
      handle_add_anchor_click coords anchors mx my = (coords, anchors) := by
    intro h
    unfold handle_add_anchor_click
    rw [h]
  refine ⟨hnone, ?_, ?_⟩
  · intro hshort
    exact hnone (find_closest_segment_index_short mx my coords hshort)
  · intro i hfind
    have hb : i + 4 ≤ coords.length := find_closest_segment_index_bound mx my coords i hfind
    have hsorted : List.Sorted (· ≤ ·) (handle_add_anchor_click coords anchors mx my).2 := by
      unfold handle_add_anchor_click
      rw [hfind]
      exact List.sorted_insertionSort _ _
    have hmem : (i+2) ∈ (handle_add_anchor_click coords anchors mx my).2 := by
      unfold handle_add_anchor_click
      rw [hfind]
      simp only
      rw [(List.perm_insertionSort _ _).mem_iff]
      simp
    by_cases hdeg : (coords.getD (i+2) 0 - coords.getD i 0)^2
        + (coords.getD (i+3) 0 - coords.getD (i+1) 0)^2 < 1/10^10
    · have h1 : (handle_add_anchor_click coords anchors mx my).1
          = coords.take (i+2) ++ [coords.getD i 0, coords.getD (i+1) 0] ++ coords.drop (i+2) := by
        unfold handle_add_anchor_click
        rw [hfind]
        simp only
        rw [if_pos hdeg]
      obtain ⟨hlen, hlow, hhigh, hu, hv⟩ :=
        splice_facts coords i (coords.getD i 0) (coords.getD (i+1) 0) hb
      rw [h1]
      refine ⟨hlen, hlow, hhigh, hsorted, hmem, fun _ => ⟨hu, hv⟩, ?_⟩
      intro hcontra
      exact absurd hdeg (not_lt.mpr hcontra)
    · have h1 : (handle_add_anchor_click coords anchors mx my).1
          = coords.take (i+2)
            ++ [coords.getD i 0
                  + (max 0 (min 1 (((mx - coords.getD i 0)*(coords.getD (i+2) 0 - coords.getD i 0)
                        + (my - coords.getD (i+1) 0)*(coords.getD (i+3) 0 - coords.getD (i+1) 0))
                      / ((coords.getD (i+2) 0 - coords.getD i 0)^2
                        + (coords.getD (i+3) 0 - coords.getD (i+1) 0)^2))))
                    * (coords.getD (i+2) 0 - coords.getD i 0),
                coords.getD (i+1) 0
                  + (max 0 (min 1 (((mx - coords.getD i 0)*(coords.getD (i+2) 0 - coords.getD i 0)
                        + (my - coords.getD (i+1) 0)*(coords.getD (i+3) 0 - coords.getD (i+1) 0))
                      / ((coords.getD (i+2) 0 - coords.getD i 0)^2
                        + (coords.getD (i+3) 0 - coords.getD (i+1) 0)^2))))
                    * (coords.getD (i+3) 0 - coords.getD (i+1) 0)]
            ++ coords.drop (i+2) := by
        unfold handle_add_anchor_click
        rw [hfind]
        simp only
        rw [if_neg hdeg]
      obtain ⟨hlen, hlow, hhigh, hu, hv⟩ := splice_facts coords i _ _ hb
      rw [h1]
      refine ⟨hlen, hlow, hhigh, hsorted, hmem, ?_, fun _ => ⟨hu, hv⟩⟩
      intro hcontra
      exact absurd hcontra hdeg

/-- Witness for the amended Claim C6 at the single-segment click. -/
theorem handle_add_anchor_click_spec_witness :
    find_closest_segment_index 2 5 [0, 0, 10, 0] = some 0
    ∧ (handle_add_anchor_click [0, 0, 10, 0] ([] : List Nat) 2 5).1.length
        = ([0, 0, 10, 0] : List ℝ).length + 2
    ∧ List.Sorted (· ≤ ·) (handle_add_anchor_click [0, 0, 10, 0] ([] : List Nat) 2 5).2
    ∧ (0+2) ∈ (handle_add_anchor_click [0, 0, 10, 0] ([] : List Nat) 2 5).2 := by
  have hfind : find_closest_segment_index 2 5 [0, 0, 10, 0] = some 0 := by
    simp [find_closest_segment_index, find_closest_segment_aux]
  have h := (handle_add_anchor_click_spec [0, 0, 10, 0] ([] : List Nat) 2 5).2.2 0 hfind
  exact ⟨hfind, h.1, h.2.2.2.1, h.2.2.2.2.1⟩

end Illustrator
